import Mathlib

/-!
Shallow embedding of the startup-village PDF generator's layout engine:
text sanitizing and wrapping, the cursor/pagination controller, the photo
grid layout, comment/checkbox rendering decisions, the image-fetch wrapper,
and the two-pass table-of-contents orchestration, together with theorems
about their behaviour.

Text is modelled as List Char; JS floating-point page coordinates are
modelled as rationals, and integer-valued coordinates as integers where the
source only ever produces integers.
-/

/-- True for carriage return and line feed, the character class of the
regular expression used in the first step of sanitizeText. -/
def isCrLf (c : Char) : Bool := c = '\r' || c = '\n'

/-- The JavaScript whitespace class matched by the \s regular expression
class (ASCII whitespace plus the Unicode space separators, NBSP, BOM and
the line/paragraph separators). -/
def isJsWs (c : Char) : Bool :=
  c = ' ' || c = '\t' || c = '\n' || c = '\r' ||
  c.toNat = 11 || c.toNat = 12 ||
  c.toNat = 0xa0 || c.toNat = 0x1680 ||
  (0x2000 ≤ c.toNat && c.toNat ≤ 0x200a) ||
  c.toNat = 0x2028 || c.toNat = 0x2029 || c.toNat = 0x202f ||
  c.toNat = 0x205f || c.toNat = 0x3000 || c.toNat = 0xfeff

/-- Printable ASCII, the character class kept by sanitizeText's third step. -/
def isPrintAscii (c : Char) : Bool := 0x20 ≤ c.toNat && c.toNat ≤ 0x7e

/-- Worker for collapseRuns; the flag records whether the previous
character belonged to the class being collapsed. -/
def collapseRunsAux (p : Char → Bool) (rep : Char) : Bool → List Char → List Char
  | _, [] => []
  | inRun, c :: cs =>
    if p c then
      if inRun then collapseRunsAux p rep true cs
      else rep :: collapseRunsAux p rep true cs
    else c :: collapseRunsAux p rep false cs

/-- Replace every maximal run of characters satisfying p by the single
character rep, the effect of String.replace with a one-class regular
expression carrying the + quantifier. -/
def collapseRuns (p : Char → Bool) (rep : Char) (l : List Char) : List Char :=
  collapseRunsAux p rep false l

/-- JavaScript String.prototype.trim on a character list. -/
def jsTrim (l : List Char) : List Char :=
  ((l.dropWhile isJsWs).reverse.dropWhile isJsWs).reverse

/-- sanitizeText from generate-complete-report.js: newlines to spaces,
whitespace runs collapsed to one space, characters outside printable ASCII
deleted, and the result trimmed. -/
def sanitizeL (l : List Char) : List Char :=
  jsTrim ((collapseRuns isJsWs ' ' (collapseRuns isCrLf ' ' l)).filter isPrintAscii)

/-- JavaScript String.prototype.split with the single-character separator
" ": every space is a cut point and the result is never empty. -/
def splitSpace : List Char → List (List Char)
  | [] => [[]]
  | c :: cs =>
    if c = ' ' then [] :: splitSpace cs
    else
      match splitSpace cs with
      | [] => [[c]]
      | w :: ws => (c :: w) :: ws

/-- The word-accumulation loop of wrapText from generate-complete-report.js.
The measure argument abstracts font.widthOfTextAtSize at the chosen size.
A test line is the current line extended by one word (with a joining
space); on overflow with a nonempty current line the current line is
committed and the word starts the next line. -/
def wrapLoop (measure : List Char → ℚ) (maxWidth : ℚ) :
    List (List Char) → List Char → List (List Char)
  | [], cur => if cur = [] then [] else [cur]
  | w :: ws, cur =>
    let test := if cur = [] then w else cur ++ ' ' :: w
    if maxWidth < measure test ∧ cur ≠ [] then
      cur :: wrapLoop measure maxWidth ws w
    else
      wrapLoop measure maxWidth ws test

/-- wrapText from generate-complete-report.js: sanitize, split on spaces,
then greedily accumulate words into lines. -/
def wrapText (measure : List Char → ℚ) (maxWidth : ℚ) (text : List Char) :
    List (List Char) :=
  wrapLoop measure maxWidth (splitSpace (sanitizeL text)) []

/-- The pagination cursor: the current vertical position on the current
page plus the number of pages created so far. The page pointer itself is
summarised by the page counter since every page has the same template. -/
structure Cursor where
  y : ℤ
  pages : ℕ
deriving DecidableEq, Repr

/-- MINIMUM_SPACE_NEEDED from the generator. -/
def MINIMUM_SPACE_NEEDED : ℤ := 50

/-- FOOTER_BUFFER from the generator: content must stay this far above the
bottom of the page. -/
def FOOTER_BUFFER : ℤ := 100

/-- Height of the default pdf-lib page (US Letter, 792 points). -/
def pageHeightPts : ℤ := 792

/-- addPageTemplate returns height - 120 as the Y where free content may
begin on a fresh page. -/
def contentStartY : ℤ := pageHeightPts - 120

/-- checkAndCreateNewPage: adds one templated page and resets the cursor
when forced or when the cursor is below MINIMUM_SPACE_NEEDED. -/
def checkAndCreateNewPage (pos : Cursor) (forceNewPage : Bool) : Cursor :=
  if forceNewPage || decide (pos.y < MINIMUM_SPACE_NEEDED) then
    { y := contentStartY, pages := pos.pages + 1 }
  else pos

/-- ensureSpace from the generator: force a single new page whenever
drawing neededHeight units from the current position would intrude into
the footer buffer; otherwise leave the cursor untouched. -/
def ensureSpace (pos : Cursor) (neededHeight : ℤ) : Cursor :=
  if pos.y - neededHeight < FOOTER_BUFFER then checkAndCreateNewPage pos true
  else pos

/-- The usable height of a fresh page: from the content start down to the
footer buffer. -/
def usablePageHeight : ℤ := contentStartY - FOOTER_BUFFER

/-- The cursor after each call in a sequence of ensureSpace calls. -/
def ensureSpaceTrace (pos : Cursor) : List ℤ → List Cursor
  | [] => []
  | n :: ns => ensureSpace pos n :: ensureSpaceTrace (ensureSpace pos n) ns

/-- JavaScript Math.floor on a rational, staying in the rationals as the
source stays in doubles. -/
def jsMathFloor (q : ℚ) : ℚ := (q.floor : ℚ)

/-- GRID_COLUMNS_DEFAULT from the generator. -/
def GRID_COLUMNS_DEFAULT : ℕ := 3

/-- GRID_GUTTER, horizontal spacing between grid cells. -/
def GRID_GUTTER : ℚ := 12

/-- GRID_MAX_CELL_HEIGHT, maximum image height per cell without caption. -/
def GRID_MAX_CELL_HEIGHT : ℚ := 240

/-- Width of the default pdf-lib page (US Letter, 612 points). -/
def pageWidthPts : ℚ := 612

/-- lineItemContentStartX, left edge of the line-item text column. -/
def lineItemContentStartX : ℚ := 130

/-- RIGHT_MARGIN, right page margin of the content column. -/
def RIGHT_MARGIN : ℚ := 20

/-- availW of the grid code: page width minus the content column's left
edge and the right margin. -/
def gridAvailW : ℚ := pageWidthPts - lineItemContentStartX - RIGHT_MARGIN

/-- columns = Math.min(GRID_COLUMNS_DEFAULT, embedded.length). -/
def gridColumns (n : ℕ) : ℕ := min GRID_COLUMNS_DEFAULT n

/-- cellW = Math.floor((availW - (columns - 1) * GRID_GUTTER) / columns). -/
def gridCellW (n : ℕ) : ℚ :=
  jsMathFloor ((gridAvailW - ((gridColumns n - 1 : ℕ) : ℚ) * GRID_GUTTER) / (gridColumns n : ℚ))

/-- A decoded image with its native pixel dimensions and caption text. -/
structure ImgDims where
  width : ℚ
  height : ℚ
  caption : String
deriving DecidableEq, Repr

/-- Per-image scale factor of the grid:
Math.min(cellW / width, GRID_MAX_CELL_HEIGHT / height, 1). -/
def imgScale (cellW : ℚ) (img : ImgDims) : ℚ :=
  min (cellW / img.width) (min (GRID_MAX_CELL_HEIGHT / img.height) 1)

/-- An image together with its scaled (floored) draw dimensions. -/
structure ScaledImg where
  w : ℚ
  h : ℚ
  caption : String
deriving DecidableEq, Repr

/-- Scaled dimensions of one image in the grid: w and h are floored after
multiplying both native dimensions by the single scale factor. -/
def scaleImg (cellW : ℚ) (img : ImgDims) : ScaledImg :=
  { w := jsMathFloor (img.width * imgScale cellW img)
    h := jsMathFloor (img.height * imgScale cellW img)
    caption := img.caption }

/-- Fuel-indexed worker for chunkRows; the fuel is the length of the list,
so the middle branch is never reached. -/
def chunkFuel (k : ℕ) : ℕ → List α → List (List α)
  | _, [] => []
  | 0, a :: l => [a :: l]
  | fuel + 1, a :: l => (a :: l.take (k - 1)) :: chunkFuel k fuel (l.drop (k - 1))

/-- Split a list into consecutive rows of k elements (the last row may be
shorter), matching the while loop that slices embedded images i to
i + columns. -/
def chunkRows (k : ℕ) (l : List α) : List (List α) := chunkFuel k l.length l

/-- One image as placed in a grid row: its cell's left edge, its own left
edge after horizontal centering, and its drawn dimensions. -/
structure PlacedImg where
  cellX : ℚ
  x : ℚ
  w : ℚ
  h : ℚ
  caption : String
deriving DecidableEq, Repr

/-- Place the images of one row: cell c starts at
lineItemContentStartX + c * (cellW + GRID_GUTTER) and the image is shifted
right by Math.floor((cellW - w) / 2) inside its cell. -/
def placeRow (cellW : ℚ) (row : List ImgDims) : List PlacedImg :=
  (row.map (scaleImg cellW)).enum.map (fun ci =>
    let xCell := lineItemContentStartX + (ci.1 : ℚ) * (cellW + GRID_GUTTER)
    { cellX := xCell
      x := xCell + jsMathFloor ((cellW - ci.2.w) / 2)
      w := ci.2.w
      h := ci.2.h
      caption := ci.2.caption })

/-- captionH: one 12-point caption line when any image of the row carries a
caption, else nothing. -/
def rowCaptionH (row : List ScaledImg) : ℚ :=
  if row.any (fun it => it.caption ≠ "") then 12 else 0

/-- Math.max over the scaled heights of a row (heights are nonnegative). -/
def rowMaxH (row : List ScaledImg) : ℚ :=
  (row.map (fun it => it.h)).foldr max 0

/-- A laid-out grid row: placed images plus the reserved row height. -/
structure GridRow where
  imgs : List PlacedImg
  rowHeight : ℚ
deriving DecidableEq, Repr

/-- Lay out one row: place the images and reserve the tallest scaled
height plus the caption line. -/
def layoutRow (cellW : ℚ) (row : List ImgDims) : GridRow :=
  let scaled := row.map (scaleImg cellW)
  { imgs := placeRow cellW row
    rowHeight := rowMaxH scaled + rowCaptionH scaled }

/-- The photo-grid layout of addCommentsToLineItem: column count and cell
width are computed once from the number of embedded images, then images
fill rows of (at most) that many columns in input order. -/
def layoutGrid (imgs : List ImgDims) : List GridRow :=
  (chunkRows (gridColumns imgs.length) imgs).map (layoutRow (gridCellW imgs.length))

/-- JavaScript String.prototype.trim lifted to String. -/
def jsTrimS (s : String) : String := (jsTrim s.toList).asString

/-- A photo reference of a comment. -/
structure Photo where
  url : String
  caption : String
deriving DecidableEq, Repr

/-- A video reference of a comment. -/
structure Video where
  url : String
deriving DecidableEq, Repr

/-- A comment of a line item. Absent JSON fields are modelled as the empty
string or the empty list, which are exactly the falsy cases the source
tests for. -/
structure Comment where
  label : String
  text : String
  content : String
  commentText : String
  location : String
  tag : String
  recommendation : String
  selectedOptions : List String
  photos : List Photo
  videos : List Video
deriving DecidableEq, Repr

/-- hasText of the comment loop: comment.text, comment.content or
comment.commentText is truthy. -/
def commentHasText (c : Comment) : Bool :=
  !(c.text == "") || !(c.content == "") || !(c.commentText == "")

/-- hasLocation: comment.location is truthy and trims to a nonempty
string. -/
def commentHasLocation (c : Comment) : Bool :=
  !(c.location == "") && !(jsTrimS c.location == "")

/-- hasSelectedOptions: a nonempty selectedOptions array. -/
def commentHasSelectedOptions (c : Comment) : Bool :=
  !c.selectedOptions.isEmpty

/-- hasPhotos: a nonempty photos array. -/
def commentHasPhotos (c : Comment) : Bool := !c.photos.isEmpty

/-- hasVideos: a nonempty videos array. -/
def commentHasVideos (c : Comment) : Bool := !c.videos.isEmpty

/-- hasRecommendation: comment.recommendation is truthy and trims to a
nonempty string. -/
def commentHasRecommendation (c : Comment) : Bool :=
  !(c.recommendation == "") && !(jsTrimS c.recommendation == "")

/-- hasAnyContent of generateSectionPage's comment loop. The tag alone
does not count as content: a comment with only a tag or label is still
skipped. -/
def commentHasAnyContent (c : Comment) : Bool :=
  commentHasText c || commentHasLocation c || commentHasSelectedOptions c ||
  commentHasPhotos c || commentHasVideos c || commentHasRecommendation c

/-- One drawing operation recorded on a page. -/
inductive DrawOp where
  | drawText (s : String) (x y : ℚ)
  | drawImage (w h : ℚ)
  | drawRect (x y w h : ℚ)
deriving DecidableEq, Repr

/-- The comment loop of generateSectionPage: a comment without any
displayable content is skipped by continue before any drawing operation is
issued or any vertical space is consumed; the renderer body for contentful
comments is abstract. The second component of the state is the cursor's Y
position. -/
def commentLoop (body : Comment → ℤ → List DrawOp × ℤ) :
    List Comment → ℤ → List DrawOp × ℤ
  | [], y => ([], y)
  | c :: cs, y =>
    if commentHasAnyContent c then
      let r := body c y
      let rest := commentLoop body cs r.2
      (r.1 ++ rest.1, rest.2)
    else commentLoop body cs y

/-- The four checkbox column labels. -/
def checkboxTypes : List String := ["I", "NI", "NP", "D"]

/-- A line item as far as checkbox and default-comment rendering is
concerned. -/
structure LineItemData where
  id : String
  name : String
  inspectionStatus : String
  isDeficient : Bool
  comments : List Comment
deriving DecidableEq, Repr

/-- The check decision of addCheckBoxToLineItem for one checkbox type:
the D box is checked when the deficiency flag is set, otherwise the box
whose type equals the inspection status is checked. -/
def checkboxIsChecked (li : LineItemData) (ty : String) : Bool :=
  (li.isDeficient && ty == "D") || (!li.isDeficient && ty == li.inspectionStatus)

/-- The checkbox types that addCheckBoxToLineItem checks for a line
item. -/
def checkedBoxes (li : LineItemData) : List String :=
  checkboxTypes.filter (checkboxIsChecked li)

/-- An empty comment with every field absent. -/
def emptyComment : Comment :=
  { label := "", text := "", content := "", commentText := "", location := ""
    tag := "", recommendation := "", selectedOptions := [], photos := []
    videos := [] }

/-- defaultComments of createPdf: the two fabricated comments substituted
for an absent or empty comments list. -/
def defaultComments : List Comment :=
  [{ emptyComment with
      label := "General Observation"
      content :=
        "No specific issues or concerns were observed during the inspection of this item." },
   { emptyComment with
      label := "Maintenance Note"
      content :=
        "Regular maintenance and periodic inspection is recommended to ensure optimal performance and longevity." }]

/-- commentsToUse of createPdf: the actual comments when at least one
exists, else the two default comments. -/
def commentsToUse (li : LineItemData) : List Comment :=
  if 0 < li.comments.length then li.comments else defaultComments

/-- An image successfully downloaded and decoded, with its pixel
dimensions. -/
structure EmbeddedImg where
  width : ℚ
  height : ℚ
deriving DecidableEq, Repr

/-- The observable outcome of one image fetch: an HTTP response carrying a
status code and what embedding its body yields (none when neither JPG nor
PNG decoding succeeds), a network error, or a timeout. -/
inductive FetchInput where
  | response (status : ℕ) (decoded : Option EmbeddedImg)
  | networkError
  | timedOut
deriving DecidableEq, Repr

/-- fetchAndEmbedImage: a non-2xx status resolves null, a decode failure
resolves null, and network errors and timeouts resolve null; the promise
never rejects, so the caller never sees an error. -/
def fetchAndEmbedImage : FetchInput → Option EmbeddedImg
  | FetchInput.response status decoded =>
    if status < 200 ∨ 300 ≤ status then none else decoded
  | FetchInput.networkError => none
  | FetchInput.timedOut => none

/-- The embedding loop of addCommentsToLineItem's photo grid: fetch every
photo, keep the successes in order, drop the failures. -/
def embedPhotos : List FetchInput → List EmbeddedImg
  | [] => []
  | p :: ps =>
    match fetchAndEmbedImage p with
    | some img => img :: embedPhotos ps
    | none => embedPhotos ps

/-- The per-photo loop of the sequential renderer variant: when embedding
yields an image the abstract success branch draws it, and when the fetch
resolves null the falsy test skips the photo without drawing anything; the
surrounding catch block never fires for a failed fetch because the fetch
wrapper never rejects. -/
def p1PhotoLoop (drawOk : EmbeddedImg → ℤ → List DrawOp × ℤ) :
    List FetchInput → ℤ → List DrawOp × ℤ
  | [], y => ([], y)
  | p :: ps, y =>
    match fetchAndEmbedImage p with
    | some img =>
      let r := drawOk img y
      let rest := p1PhotoLoop drawOk ps r.2
      (r.1 ++ rest.1, rest.2)
    | none => p1PhotoLoop drawOk ps y

/-- A section as far as ordering and page accounting are concerned;
bodyPages abstracts how many pages generateSectionPage emits for it. -/
structure SectionData where
  name : String
  order : ℤ
deriving DecidableEq, Repr

/-- The generate input: the two places a section list may live,
inspectionData.inspection.sections and inspectionData.sections. -/
structure InspectionInput where
  inspectionSections : Option (List SectionData)
  topSections : Option (List SectionData)
deriving DecidableEq, Repr

/-- sections = inspectionData?.inspection?.sections ||
inspectionData?.sections || []. -/
def sectionsOf (d : InspectionInput) : List SectionData :=
  (d.inspectionSections.orElse (fun _ => d.topSections)).getD []

/-- Insert an element into an ascending list, before the first element it
compares less-or-equal to; together with sortStable this is a stable
ascending sort. -/
def insertSorted (le : α → α → Bool) (a : α) : List α → List α
  | [] => [a]
  | b :: l => if le a b then a :: b :: l else b :: insertSorted le a l

/-- Stable ascending insertion sort, modelling the stable JavaScript
Array.prototype.sort. -/
def sortStable (le : α → α → Bool) : List α → List α
  | [] => []
  | a :: l => insertSorted le a (sortStable le l)

/-- The sort (a, b) => a.order - b.order applied to the section list by
both the body pass and the table-of-contents pass. -/
def sortSectionsByOrder (ss : List SectionData) : List SectionData :=
  sortStable (fun a b => a.order ≤ b.order) ss

/-- The cursor position of createTableOfContents after drawing the title
block with the options the complete report passes: page top 792 - 50,
minus titleFontSize 18 + 30, minus 30 for the rule. -/
def tocStartY : ℤ := 792 - 50 - (18 + 30) - 30

/-- The pagination loop of createTableOfContents over section entries:
a new page starts when currentY < margin + 50 and every entry consumes
lineHeight = 20; returns the page count. -/
def tocLoop : ℕ → ℤ → ℕ → ℕ
  | 0, _, pages => pages
  | n + 1, y, pages =>
    if y < 50 + 50 then tocLoop n (792 - 50 - 20) (pages + 1)
    else tocLoop n (y - 20) pages

/-- Number of pages the table of contents occupies for n section
entries. -/
def tocPageCount (n : ℕ) : ℕ := tocLoop n tocStartY 1

/-- The recorded page numbers of the body pass: before rendering section i
the document holds pageCount pages (cover plus earlier sections) and the
loop records pageCount + 2, anticipating a cover-relative shift of one
table-of-contents page. The accumulator starts at 1, the cover page. -/
def recordedNumbersAux (pageCount : ℕ) : List ℕ → List ℕ
  | [] => []
  | p :: ps => (pageCount + 2) :: recordedNumbersAux (pageCount + p) ps

/-- sectionPageMap of generateCompleteReport as a list indexed like the
sorted sections, given each section's body page count. -/
def recordedNumbers (bodyPages : List ℕ) : List ℕ := recordedNumbersAux 1 bodyPages

/-- What kind of content a physical page of the final document carries. -/
inductive PageTag where
  | cover
  | toc
  | body (sectionIdx : ℕ)
deriving DecidableEq, Repr

/-- The body pages in section order: section i contributes its page count
worth of pages tagged body i. -/
def bodyPageSeq : ℕ → List ℕ → List PageTag
  | _, [] => []
  | i, p :: ps => List.replicate p (PageTag.body i) ++ bodyPageSeq (i + 1) ps

/-- Sum of the first i entries of a list of page counts. -/
def sumTake (l : List ℕ) (i : ℕ) : ℕ := (l.take i).sum

/-- The assembled complete report: the sorted sections, their body page
counts, the page numbers printed in the table of contents, the number of
table-of-contents pages, and the physical page sequence after the TOC
pages are inserted directly behind the cover page. -/
structure AssembledReport where
  sortedSections : List SectionData
  bodyPages : List ℕ
  printedNumbers : List ℕ
  tocPages : ℕ
  pageSeq : List PageTag
deriving DecidableEq, Repr

/-- The two-pass assembly of generateCompleteReport: sort the sections,
render the body recording sectionPageMap, render the TOC printing the
recorded numbers, then insert the TOC pages at positions 1.. directly
after the cover page. -/
def assembleReport (sections : List SectionData) (bodyPagesOf : SectionData → ℕ) :
    AssembledReport :=
  let sorted := sortSectionsByOrder sections
  let bp := sorted.map bodyPagesOf
  { sortedSections := sorted
    bodyPages := bp
    printedNumbers := recordedNumbers bp
    tocPages := tocPageCount sorted.length
    pageSeq := PageTag.cover ::
      (List.replicate (tocPageCount sorted.length) PageTag.toc ++ bodyPageSeq 0 bp) }

/-- generateCompleteReport: extract the section list, fail before creating
any page when it is empty, otherwise assemble the document. -/
def generateCompleteReportModel (d : InspectionInput)
    (bodyPagesOf : SectionData → ℕ) : Except String AssembledReport :=
  let sections := sectionsOf d
  if sections.length = 0 then
    Except.error "No sections found in inspection data"
  else Except.ok (assembleReport sections bodyPagesOf)

/-- The 1-based physical position of the first page of section i in the
final spliced document. -/
def physicalPageOf (r : AssembledReport) (i : ℕ) : ℕ :=
  r.pageSeq.findIdx (fun t => t == PageTag.body i) + 1


theorem ensureSpace_eq (pos : Cursor) (needed : ℤ) :
    ensureSpace pos needed =
      if pos.y - needed < FOOTER_BUFFER then
        { y := contentStartY, pages := pos.pages + 1 }
      else pos := by
  simp [ensureSpace, checkAndCreateNewPage]

/-- Claim C1: after every ensureSpace call with positive neededHeight the
caller can draw neededHeight units at the cursor without entering the
footer buffer, the cursor is untouched when the space already fits, and
when the requested height does not fit, exactly one new page is created
and the cursor is reset to the content start (so footer overlap can occur
only when a single request exceeds the usable page height); along any
sequence of calls whose heights fit a fresh page, every call ends with the
requested height clear of the footer buffer. -/
theorem ensureSpace_spec :
    (∀ (pos : Cursor) (needed : ℤ), 0 < needed →
      (FOOTER_BUFFER ≤ pos.y - needed → ensureSpace pos needed = pos) ∧
      (needed ≤ usablePageHeight →
        FOOTER_BUFFER ≤ (ensureSpace pos needed).y - needed) ∧
      (pos.y - needed < FOOTER_BUFFER →
        (ensureSpace pos needed).pages = pos.pages + 1 ∧
        (ensureSpace pos needed).y = contentStartY)) ∧
    (∀ (pos : Cursor) (ns : List ℤ),
      (∀ n ∈ ns, 0 < n ∧ n ≤ usablePageHeight) →
      ∀ pr ∈ (ensureSpaceTrace pos ns).zip ns, FOOTER_BUFFER ≤ pr.1.y - pr.2) := by
  have key : ∀ (pos : Cursor) (needed : ℤ),
      (FOOTER_BUFFER ≤ pos.y - needed → ensureSpace pos needed = pos) ∧
      (needed ≤ usablePageHeight →
        FOOTER_BUFFER ≤ (ensureSpace pos needed).y - needed) ∧
      (pos.y - needed < FOOTER_BUFFER →
        (ensureSpace pos needed).pages = pos.pages + 1 ∧
        (ensureSpace pos needed).y = contentStartY) := by
    intro pos needed
    rw [ensureSpace_eq]
    by_cases h : pos.y - needed < FOOTER_BUFFER
    · rw [if_pos h]
      refine ⟨fun hle => absurd h (by omega), fun hfit => ?_, fun _ => ⟨rfl, rfl⟩⟩
      simp only [usablePageHeight, contentStartY, pageHeightPts, FOOTER_BUFFER] at *
      omega
    · rw [if_neg h]
      exact ⟨fun _ => rfl, fun _ => by omega, fun hlt => absurd hlt h⟩
  refine ⟨fun pos needed _ => key pos needed, ?_⟩
  intro pos ns
  induction ns generalizing pos with
  | nil => intro _ pr hpr; simp [ensureSpaceTrace] at hpr
  | cons n ns ih =>
    intro hall pr hpr
    simp only [ensureSpaceTrace, List.zip_cons_cons, List.mem_cons] at hpr
    rcases hpr with rfl | hpr
    · exact (key pos n).2.1 (hall n (by simp)).2
    · exact ih (ensureSpace pos n) (fun m hm => hall m (by simp [hm])) pr hpr

theorem ensureSpace_spec_witness :
    (0 : ℤ) < 500 ∧ (500 : ℤ) ≤ usablePageHeight ∧
    FOOTER_BUFFER ≤ (ensureSpace ⟨150, 1⟩ 500).y - 500 ∧
    (∀ n ∈ [500, 300, (572 : ℤ)], 0 < n ∧ n ≤ usablePageHeight) ∧
    (∀ pr ∈ (ensureSpaceTrace ⟨672, 1⟩ [500, 300, 572]).zip [500, 300, 572],
      FOOTER_BUFFER ≤ pr.1.y - pr.2) :=
  ⟨by decide, by decide,
   ((ensureSpace_spec.1 ⟨150, 1⟩ 500 (by decide)).2.1 (by decide)),
   by decide,
   ensureSpace_spec.2 ⟨672, 1⟩ [500, 300, 572] (by decide)⟩

/-- Claim C7: for every line item at most one of the I/NI/NP/D checkboxes
is checked; when the deficiency flag is set exactly the D box is marked
regardless of the inspection status, and otherwise exactly the box whose
label equals the inspection status is marked. -/
theorem checkbox_precedence (li : LineItemData) :
    (checkedBoxes li).length ≤ 1 ∧
    (li.isDeficient = true → checkedBoxes li = ["D"]) ∧
    (li.isDeficient = false → li.inspectionStatus ∈ checkboxTypes →
      checkedBoxes li = [li.inspectionStatus]) := by
  have hD : li.isDeficient = true → checkedBoxes li = ["D"] := by
    intro h
    simp [checkedBoxes, checkboxTypes, checkboxIsChecked, h]
  have hS : li.isDeficient = false → li.inspectionStatus ∈ checkboxTypes →
      checkedBoxes li = [li.inspectionStatus] := by
    intro h hmem
    simp only [checkboxTypes, List.mem_cons, List.not_mem_nil, or_false] at hmem
    rcases hmem with h1 | h1 | h1 | h1 <;>
      simp [checkedBoxes, checkboxTypes, checkboxIsChecked, h, h1]
  refine ⟨?_, hD, hS⟩
  cases hd : li.isDeficient with
  | true => rw [hD hd]; decide
  | false =>
    by_cases hmem : li.inspectionStatus ∈ checkboxTypes
    · rw [hS hd hmem]; simp
    · have hnil : checkedBoxes li = [] := by
        simp only [checkboxTypes, List.mem_cons, List.not_mem_nil, or_false,
          not_or] at hmem
        have h1 : checkboxIsChecked li "I" = false := by
          simp [checkboxIsChecked, hd]
          exact fun h => hmem.1 h.symm
        have h2 : checkboxIsChecked li "NI" = false := by
          simp [checkboxIsChecked, hd]
          exact fun h => hmem.2.1 h.symm
        have h3 : checkboxIsChecked li "NP" = false := by
          simp [checkboxIsChecked, hd]
          exact fun h => hmem.2.2.1 h.symm
        have h4 : checkboxIsChecked li "D" = false := by
          simp [checkboxIsChecked, hd]
          exact fun h => hmem.2.2.2 h.symm
        simp [checkedBoxes, checkboxTypes, List.filter, h1, h2, h3, h4]
      rw [hnil]; decide

theorem checkbox_precedence_witness :
    (⟨"7", "Wiring", "I", true, []⟩ : LineItemData).isDeficient = true ∧
    checkedBoxes ⟨"7", "Wiring", "I", true, []⟩ = ["D"] :=
  ⟨rfl, (checkbox_precedence ⟨"7", "Wiring", "I", true, []⟩).2.1 rfl⟩

/-- Claim C9: a line item whose comments list is empty is rendered with
the two fabricated default comments, with exactly the documented labels
and bodies, and the actual comments are used whenever at least one
exists. -/
theorem defaultComments_substitution (li : LineItemData) :
    (li.comments = [] →
      commentsToUse li = defaultComments ∧
      (commentsToUse li).map (fun c => (c.label, c.content)) =
        [("General Observation",
          "No specific issues or concerns were observed during the inspection of this item."),
         ("Maintenance Note",
          "Regular maintenance and periodic inspection is recommended to ensure optimal performance and longevity.")]) ∧
    (li.comments ≠ [] → commentsToUse li = li.comments) := by
  constructor
  · intro h
    have : commentsToUse li = defaultComments := by
      simp [commentsToUse, h]
    exact ⟨this, by rw [this]; decide⟩
  · intro h
    have : 0 < li.comments.length := List.length_pos.mpr h
    simp [commentsToUse, this]

theorem defaultComments_substitution_witness :
    (⟨"1", "Roof", "I", false, []⟩ : LineItemData).comments = [] ∧
    commentsToUse ⟨"1", "Roof", "I", false, []⟩ = defaultComments :=
  ⟨rfl, ((defaultComments_substitution ⟨"1", "Roof", "I", false, []⟩).1 rfl).1⟩

/-- Claim C5: a comment with no text, location, tag, selected options,
photos, videos or recommendation fails the hasAnyContent test, so the
comment loop skips it with zero drawing operations and an unchanged
cursor, wherever it occurs in the list, and it is never counted. -/
theorem emptyComment_suppressed (c : Comment)
    (ht : c.text = "") (hc : c.content = "") (hct : c.commentText = "")
    (hl : c.location = "") (_htag : c.tag = "") (hr : c.recommendation = "")
    (hso : c.selectedOptions = []) (hp : c.photos = []) (hv : c.videos = []) :
    commentHasAnyContent c = false ∧
    (∀ body cs1 cs2 y,
      commentLoop body (cs1 ++ c :: cs2) y = commentLoop body (cs1 ++ cs2) y) ∧
    (∀ body y, commentLoop body [c] y = ([], y)) := by
  have hno : commentHasAnyContent c = false := by
    simp [commentHasAnyContent, commentHasText, commentHasLocation,
      commentHasSelectedOptions, commentHasPhotos, commentHasVideos,
      commentHasRecommendation, ht, hc, hct, hl, hr, hso, hp, hv]
  refine ⟨hno, ?_, fun body y => by simp [commentLoop, hno]⟩
  intro body cs1 cs2 y
  induction cs1 generalizing y with
  | nil => simp [commentLoop, hno]
  | cons d ds ih =>
    simp only [List.cons_append, commentLoop]
    by_cases hd : commentHasAnyContent d <;> simp [hd, ih]

theorem emptyComment_suppressed_witness :
    commentHasAnyContent emptyComment = false ∧
    commentLoop (fun _ y => ([DrawOp.drawText "x" 130 0], y - 12))
      [emptyComment] 700 = ([], 700) :=
  ⟨(emptyComment_suppressed emptyComment rfl rfl rfl rfl rfl rfl rfl rfl rfl).1,
   (emptyComment_suppressed emptyComment rfl rfl rfl rfl rfl rfl rfl rfl rfl).2.2
     (fun _ y => ([DrawOp.drawText "x" 130 0], y - 12)) 700⟩

/-- Claim C6: when the extracted section list is empty the complete-report
generator fails with the documented error before any page is created, and
no document is ever produced. -/
theorem emptySections_abort (d : InspectionInput) (bodyPagesOf : SectionData → ℕ)
    (h : sectionsOf d = []) :
    generateCompleteReportModel d bodyPagesOf =
      Except.error "No sections found in inspection data" ∧
    ∀ r : AssembledReport, generateCompleteReportModel d bodyPagesOf ≠ Except.ok r := by
  have herr : generateCompleteReportModel d bodyPagesOf =
      Except.error "No sections found in inspection data" := by
    simp [generateCompleteReportModel, h]
  exact ⟨herr, fun r hr => by rw [herr] at hr; exact Except.noConfusion hr⟩

theorem emptySections_abort_witness :
    sectionsOf ⟨none, none⟩ = [] ∧
    generateCompleteReportModel ⟨none, none⟩ (fun _ => 1) =
      Except.error "No sections found in inspection data" :=
  ⟨rfl, (emptySections_abort ⟨none, none⟩ (fun _ => 1) rfl).1⟩

/-- Claim C8 counterexample: with the image fetch resolving a failure, the
sequential renderer draws no inline error note at all: its photo loop on a
failed photo produces zero drawing operations, while the claim asserts
that a textual error note is drawn in the photo's place. -/
theorem photoFailure_no_note :
    fetchAndEmbedImage FetchInput.networkError = none ∧
    p1PhotoLoop (fun img y => ([DrawOp.drawImage img.width img.height], y - 100))
      [FetchInput.networkError] 500 = ([], 500) :=
  ⟨rfl, rfl⟩

/-- Claim C8 as amended: a photo whose fetch or decode fails is skipped
silently and rendering continues exactly as if the photo were absent, in
both the grid embedding loop and the sequential photo loop, and the fetch
wrapper resolves null instead of raising on every failure. -/
theorem photoFailure_skipped (xs ys : List FetchInput) (f : FetchInput)
    (hf : fetchAndEmbedImage f = none) :
    embedPhotos (xs ++ f :: ys) = embedPhotos (xs ++ ys) ∧
    (∀ drawOk y, p1PhotoLoop drawOk (xs ++ f :: ys) y = p1PhotoLoop drawOk (xs ++ ys) y) ∧
    (∀ status dec, status < 200 ∨ 300 ≤ status →
      fetchAndEmbedImage (FetchInput.response status dec) = none) ∧
    (∀ status, fetchAndEmbedImage (FetchInput.response status none) = none) ∧
    fetchAndEmbedImage FetchInput.networkError = none ∧
    fetchAndEmbedImage FetchInput.timedOut = none := by
  refine ⟨?_, ?_, ?_, ?_, rfl, rfl⟩
  · induction xs with
    | nil => simp [embedPhotos, hf]
    | cons p ps ih =>
      simp only [List.cons_append, embedPhotos]
      cases fetchAndEmbedImage p <;> simp [ih]
  · intro drawOk y
    induction xs generalizing y with
    | nil => simp [p1PhotoLoop, hf]
    | cons p ps ih =>
      simp only [List.cons_append, p1PhotoLoop]
      cases fetchAndEmbedImage p <;> simp [ih]
  · intro status dec hstat
    simp [fetchAndEmbedImage, hstat]
  · intro status
    simp [fetchAndEmbedImage]

theorem photoFailure_skipped_witness :
    fetchAndEmbedImage FetchInput.timedOut = none ∧
    embedPhotos [FetchInput.response 200 (some ⟨10, 20⟩), FetchInput.timedOut] =
      embedPhotos [FetchInput.response 200 (some ⟨10, 20⟩)] :=
  ⟨rfl,
   (photoFailure_skipped [FetchInput.response 200 (some ⟨10, 20⟩)] []
     FetchInput.timedOut rfl).1⟩

theorem splitSpace_ne_nil : ∀ l : List Char, splitSpace l ≠ []
  | [] => by simp [splitSpace]
  | c :: cs => by
    rw [splitSpace]
    by_cases h : c = ' '
    · simp [h]
    · rw [if_neg h]
      cases hs : splitSpace cs <;> simp

theorem splitSpace_no_space : ∀ l : List Char, ∀ w ∈ splitSpace l, ' ' ∉ w
  | [] => by simp [splitSpace]
  | c :: cs => by
    intro w hw
    rw [splitSpace] at hw
    by_cases h : c = ' '
    · rw [if_pos h] at hw
      rcases List.mem_cons.mp hw with rfl | hw2
      · simp
      · exact splitSpace_no_space cs w hw2
    · rw [if_neg h] at hw
      cases hs : splitSpace cs with
      | nil => exact absurd hs (splitSpace_ne_nil cs)
      | cons w0 ws =>
        rw [hs] at hw
        rcases List.mem_cons.mp hw with rfl | hw2
        · have hw0 : ' ' ∉ w0 :=
            splitSpace_no_space cs w0 (by rw [hs]; exact List.mem_cons_self _ _)
          simp only [List.mem_cons, not_or]
          exact ⟨fun hsp => h hsp.symm, hw0⟩
        · exact splitSpace_no_space cs w
            (by rw [hs]; exact List.mem_cons_of_mem _ hw2)

theorem splitSpace_single : ∀ w : List Char, ' ' ∉ w → splitSpace w = [w]
  | [] => fun _ => rfl
  | c :: cs => by
    intro h
    simp only [List.mem_cons, not_or] at h
    rw [splitSpace, if_neg (fun hc => h.1 hc.symm), splitSpace_single cs h.2]

theorem splitSpace_append_space (a b : List Char) :
    splitSpace (a ++ ' ' :: b) = splitSpace a ++ splitSpace b := by
  induction a with
  | nil => simp [splitSpace]
  | cons c cs ih =>
    cases hs : splitSpace cs with
    | nil => exact absurd hs (splitSpace_ne_nil cs)
    | cons w0 ws =>
      by_cases h : c = ' '
      · subst h
        have e1 : splitSpace (' ' :: (cs ++ ' ' :: b)) =
            [] :: splitSpace (cs ++ ' ' :: b) := by
          rw [splitSpace, if_pos rfl]
        have e2 : splitSpace (' ' :: cs) = [] :: splitSpace cs := by
          rw [splitSpace, if_pos rfl]
        rw [List.cons_append, e1, e2, ih]
        rfl
      · rw [List.cons_append, splitSpace, if_neg h, ih, hs, splitSpace, if_neg h, hs]
        simp

theorem wrapLoop_mem_width (measure : List Char → ℚ) (maxWidth : ℚ) :
    ∀ (ws : List (List Char)) (cur : List Char),
      (measure cur ≤ maxWidth ∨ ' ' ∉ cur) → (∀ w ∈ ws, ' ' ∉ w) →
      ∀ l ∈ wrapLoop measure maxWidth ws cur, measure l ≤ maxWidth ∨ ' ' ∉ l := by
  intro ws
  induction ws with
  | nil =>
    intro cur hcur _ l hl
    rw [wrapLoop] at hl
    by_cases h : cur = []
    · rw [if_pos h] at hl; simp at hl
    · rw [if_neg h] at hl
      rcases List.mem_singleton.mp hl with rfl
      exact hcur
  | cons w ws ih =>
    intro cur hcur hws l hl
    rw [wrapLoop] at hl
    set test := if cur = [] then w else cur ++ ' ' :: w with htest
    by_cases h : maxWidth < measure test ∧ cur ≠ []
    · rw [if_pos h] at hl
      rcases List.mem_cons.mp hl with rfl | hl
      · exact hcur
      · exact ih w (Or.inr (hws w (List.mem_cons_self _ _)))
          (fun v hv => hws v (List.mem_cons_of_mem _ hv)) l hl
    · rw [if_neg h] at hl
      have hinv : measure test ≤ maxWidth ∨ ' ' ∉ test := by
        rcases not_and_or.mp h with h1 | h2
        · exact Or.inl (le_of_not_lt h1)
        · have hc : cur = [] := not_not.mp h2
          rw [htest, if_pos hc]
          exact Or.inr (hws w (List.mem_cons_self _ _))
      exact ih test hinv (fun v hv => hws v (List.mem_cons_of_mem _ hv)) l hl

theorem wrapLoop_words (measure : List Char → ℚ) (maxWidth : ℚ) :
    ∀ (ws : List (List Char)) (cur : List Char),
      (∀ w ∈ ws, w ≠ [] ∧ ' ' ∉ w) →
      ((wrapLoop measure maxWidth ws cur).map splitSpace).flatten =
        (if cur = [] then [] else splitSpace cur) ++ ws := by
  intro ws
  induction ws with
  | nil =>
    intro cur _
    rw [wrapLoop]
    by_cases h : cur = [] <;> simp [h]
  | cons w ws ih =>
    intro cur hws
    have hw : w ≠ [] ∧ ' ' ∉ w := hws w (List.mem_cons_self _ _)
    have hws2 : ∀ v ∈ ws, v ≠ [] ∧ ' ' ∉ v :=
      fun v hv => hws v (List.mem_cons_of_mem _ hv)
    rw [wrapLoop]
    set test := if cur = [] then w else cur ++ ' ' :: w with htest
    by_cases h : maxWidth < measure test ∧ cur ≠ []
    · rw [if_pos h]
      rw [List.map_cons, List.flatten_cons, ih w hws2, if_neg hw.1,
        splitSpace_single w hw.2, if_neg h.2]
      simp
    · rw [if_neg h]
      rw [ih test hws2]
      by_cases hc : cur = []
      · rw [htest, if_pos hc, if_neg hw.1, splitSpace_single w hw.2, if_pos hc]
        simp
      · have htest2 : test = cur ++ ' ' :: w := by rw [htest, if_neg hc]
        have htne : test ≠ [] := by
          rw [htest2]
          cases cur with
          | nil => exact absurd rfl hc
          | cons a l => simp
        rw [if_neg htne, htest2, splitSpace_append_space,
          splitSpace_single w hw.2, if_neg hc]
        simp

/-- Claim C2: every line the text wrapper produces measures at most the
width budget, except that an overwide single word stands alone on its
line, and the lines partition the words of the sanitized input in order,
with no word broken mid-word (stated under the hypothesis that splitting
the sanitized text yields no empty word, which holds for every printable
input). -/
theorem wrapText_greedy (measure : List Char → ℚ) (maxWidth : ℚ)
    (text : List Char) :
    (∀ l ∈ wrapText measure maxWidth text, measure l ≤ maxWidth ∨ ' ' ∉ l) ∧
    ((∀ w ∈ splitSpace (sanitizeL text), w ≠ []) →
      ((wrapText measure maxWidth text).map splitSpace).flatten =
        splitSpace (sanitizeL text)) := by
  constructor
  · intro l hl
    exact wrapLoop_mem_width measure maxWidth (splitSpace (sanitizeL text)) []
      (Or.inr (by simp)) (splitSpace_no_space (sanitizeL text)) l hl
  · intro hne
    rw [wrapText, wrapLoop_words measure maxWidth (splitSpace (sanitizeL text)) []
      (fun w hw => ⟨hne w hw, splitSpace_no_space (sanitizeL text) w hw⟩)]
    simp

theorem wrapText_greedy_witness :
    (∀ w ∈ splitSpace (sanitizeL "the roof shows heavy wear".toList), w ≠ []) ∧
    ((wrapText (fun l => (l.length : ℚ)) 10
        "the roof shows heavy wear".toList).map splitSpace).flatten =
      splitSpace (sanitizeL "the roof shows heavy wear".toList) :=
  ⟨by decide,
   (wrapText_greedy (fun l => (l.length : ℚ)) 10 "the roof shows heavy wear".toList).2
     (by decide)⟩

theorem mem_collapseRunsAux (p : Char → Bool) (rep : Char) :
    ∀ (flag : Bool) (l : List Char) (c : Char),
      c ∈ collapseRunsAux p rep flag l → c = rep ∨ c ∈ l := by
  intro flag l
  induction l generalizing flag with
  | nil => intro c hc; simp [collapseRunsAux] at hc
  | cons d ds ih =>
    intro c hc
    rw [collapseRunsAux] at hc
    by_cases hd : p d
    · rw [if_pos hd] at hc
      by_cases hf : flag
      · rw [if_pos hf] at hc
        rcases ih true c hc with h | h
        · exact Or.inl h
        · exact Or.inr (List.mem_cons_of_mem _ h)
      · rw [if_neg hf] at hc
        rcases List.mem_cons.mp hc with rfl | hc2
        · exact Or.inl rfl
        · rcases ih true c hc2 with h | h
          · exact Or.inl h
          · exact Or.inr (List.mem_cons_of_mem _ h)
    · rw [if_neg hd] at hc
      rcases List.mem_cons.mp hc with rfl | hc2
      · exact Or.inr (List.mem_cons_self _ _)
      · rcases ih false c hc2 with h | h
        · exact Or.inl h
        · exact Or.inr (List.mem_cons_of_mem _ h)

theorem mem_dropWhile_imp (p : Char → Bool) :
    ∀ (l : List Char) (c : Char), c ∈ l.dropWhile p → c ∈ l := by
  intro l
  induction l with
  | nil => intro c hc; simp [List.dropWhile] at hc
  | cons d ds ih =>
    intro c hc
    rw [List.dropWhile] at hc
    cases hd : p d with
    | true => rw [hd] at hc; exact List.mem_cons_of_mem _ (ih c hc)
    | false => rw [hd] at hc; exact hc

theorem mem_jsTrim_imp (l : List Char) (c : Char) (hc : c ∈ jsTrim l) : c ∈ l := by
  rw [jsTrim] at hc
  rw [List.mem_reverse] at hc
  have h1 := mem_dropWhile_imp isJsWs _ c hc
  rw [List.mem_reverse] at h1
  exact mem_dropWhile_imp isJsWs l c h1

theorem sanitizeL_printable (l : List Char) (c : Char) (hc : c ∈ sanitizeL l) :
    isPrintAscii c = true := by
  rw [sanitizeL] at hc
  have h1 := mem_jsTrim_imp _ c hc
  exact (List.mem_filter.mp h1).2

theorem splitSpace_mem_subset :
    ∀ (l : List Char) (w : List Char), w ∈ splitSpace l → ∀ c ∈ w, c ∈ l := by
  intro l
  induction l with
  | nil =>
    intro w hw c hc
    simp [splitSpace] at hw
    subst hw
    simp at hc
  | cons d ds ih =>
    intro w hw c hc
    rw [splitSpace] at hw
    by_cases hd : d = ' '
    · rw [if_pos hd] at hw
      rcases List.mem_cons.mp hw with rfl | hw2
      · simp at hc
      · exact List.mem_cons_of_mem _ (ih w hw2 c hc)
    · rw [if_neg hd] at hw
      cases hs : splitSpace ds with
      | nil => exact absurd hs (splitSpace_ne_nil ds)
      | cons w0 ws =>
        rw [hs] at hw
        rcases List.mem_cons.mp hw with rfl | hw2
        · rcases List.mem_cons.mp hc with rfl | hc2
          · exact List.mem_cons_self _ _
          · exact List.mem_cons_of_mem _
              (ih w0 (by rw [hs]; exact List.mem_cons_self _ _) c hc2)
        · exact List.mem_cons_of_mem _
            (ih w (by rw [hs]; exact List.mem_cons_of_mem _ hw2) c hc)

theorem wrapLoop_chars (measure : List Char → ℚ) (maxWidth : ℚ) :
    ∀ (ws : List (List Char)) (cur : List Char) (l : List Char),
      l ∈ wrapLoop measure maxWidth ws cur → ∀ c ∈ l,
      c ∈ cur ∨ (∃ w ∈ ws, c ∈ w) ∨ c = ' ' := by
  intro ws
  induction ws with
  | nil =>
    intro cur l hl c hc
    rw [wrapLoop] at hl
    by_cases h : cur = []
    · rw [if_pos h] at hl; simp at hl
    · rw [if_neg h] at hl
      rcases List.mem_singleton.mp hl with rfl
      exact Or.inl hc
  | cons w ws ih =>
    intro cur l hl c hc
    rw [wrapLoop] at hl
    set test := if cur = [] then w else cur ++ ' ' :: w with htest
    have htestmem : ∀ b ∈ test, b ∈ cur ∨ b ∈ w ∨ b = ' ' := by
      intro b hb
      rw [htest] at hb
      by_cases hcur : cur = []
      · rw [if_pos hcur] at hb
        exact Or.inr (Or.inl hb)
      · rw [if_neg hcur] at hb
        rcases List.mem_append.mp hb with hb1 | hb2
        · exact Or.inl hb1
        · rcases List.mem_cons.mp hb2 with rfl | hb3
          · exact Or.inr (Or.inr rfl)
          · exact Or.inr (Or.inl hb3)
    by_cases h : maxWidth < measure test ∧ cur ≠ []
    · rw [if_pos h] at hl
      rcases List.mem_cons.mp hl with rfl | hl2
      · exact Or.inl hc
      · rcases ih w l hl2 c hc with h1 | h1 | h1
        · exact Or.inr (Or.inl ⟨w, List.mem_cons_self _ _, h1⟩)
        · rcases h1 with ⟨v, hv, hcv⟩
          exact Or.inr (Or.inl ⟨v, List.mem_cons_of_mem _ hv, hcv⟩)
        · exact Or.inr (Or.inr h1)
    · rw [if_neg h] at hl
      rcases ih test l hl c hc with h1 | h1 | h1
      · rcases htestmem c h1 with h2 | h2 | h2
        · exact Or.inl h2
        · exact Or.inr (Or.inl ⟨w, List.mem_cons_self _ _, h2⟩)
        · exact Or.inr (Or.inr h2)
      · rcases h1 with ⟨v, hv, hcv⟩
        exact Or.inr (Or.inl ⟨v, List.mem_cons_of_mem _ hv, hcv⟩)
      · exact Or.inr (Or.inr h1)

/-- Claim C10: every character of every line produced by the
complete-report text wrapper is printable ASCII (0x20 to 0x7e): the
sanitizer replaces newlines by spaces, collapses whitespace runs, deletes
everything outside printable ASCII and trims, so drawn text can silently
differ from non-ASCII input, as the accented example shows. -/
theorem wrapText_printable (measure : List Char → ℚ) (maxWidth : ℚ)
    (text : List Char) :
    (∀ l ∈ wrapText measure maxWidth text, ∀ c ∈ l,
      0x20 ≤ c.toNat ∧ c.toNat ≤ 0x7e) ∧
    sanitizeL ['a', Char.ofNat 0xe9, 'b'] = ['a', 'b'] ∧
    sanitizeL "a\n\nb".toList = "a b".toList := by
  refine ⟨?_, by decide, by decide⟩
  intro l hl c hc
  have hmem := wrapLoop_chars measure maxWidth (splitSpace (sanitizeL text)) [] l hl c hc
  have hprint : isPrintAscii c = true := by
    rcases hmem with h1 | h1 | h1
    · simp at h1
    · rcases h1 with ⟨w, hw, hcw⟩
      exact sanitizeL_printable text c (splitSpace_mem_subset _ w hw c hcw)
    · subst h1; decide
  simp only [isPrintAscii, Bool.and_eq_true, decide_eq_true_eq] at hprint
  exact hprint

theorem wrapText_printable_witness :
    "hi there".toList ∈ wrapText (fun l => (l.length : ℚ)) 20 "hi there".toList ∧
    'h' ∈ "hi there".toList ∧
    0x20 ≤ 'h'.toNat ∧ 'h'.toNat ≤ 0x7e :=
  ⟨by decide, by decide,
   (wrapText_printable (fun l => (l.length : ℚ)) 20 "hi there".toList).1
     "hi there".toList (by decide) 'h' (by decide)⟩

theorem jsMathFloor_eq (q : ℚ) : jsMathFloor q = ((⌊q⌋ : ℤ) : ℚ) := rfl

theorem jsMathFloor_nonneg (q : ℚ) (h : 0 ≤ q) : 0 ≤ jsMathFloor q := by
  rw [jsMathFloor_eq]
  have : (0 : ℤ) ≤ ⌊q⌋ := by
    have h2 := Int.floor_mono h
    simpa using h2
  exact_mod_cast this

theorem jsMathFloor_le (q : ℚ) : jsMathFloor q ≤ q := by
  rw [jsMathFloor_eq]; exact Int.floor_le q

theorem lt_jsMathFloor_add_one (q : ℚ) : q - 1 < jsMathFloor q := by
  rw [jsMathFloor_eq]; exact Int.sub_one_lt_floor q

theorem floorHalf_bounds (q : ℚ) (hq : 0 ≤ q) :
    0 ≤ jsMathFloor (q / 2) ∧ jsMathFloor (q / 2) ≤ q ∧
    0 ≤ q - 2 * jsMathFloor (q / 2) ∧ q - 2 * jsMathFloor (q / 2) < 2 := by
  have h1 : jsMathFloor (q / 2) ≤ q / 2 := jsMathFloor_le _
  have h2 : q / 2 - 1 < jsMathFloor (q / 2) := lt_jsMathFloor_add_one _
  have h0 : 0 ≤ jsMathFloor (q / 2) := jsMathFloor_nonneg _ (by linarith)
  exact ⟨h0, by linarith, by linarith, by linarith⟩

theorem chunkFuel_flatten (k : ℕ) :
    ∀ (fuel : ℕ) (l : List α), l.length ≤ fuel → (chunkFuel k fuel l).flatten = l := by
  intro fuel
  induction fuel with
  | zero =>
    intro l hl
    cases l with
    | nil => rfl
    | cons a as => simp at hl
  | succ f ih =>
    intro l hl
    cases l with
    | nil => rfl
    | cons a as =>
      rw [chunkFuel, List.flatten_cons,
        ih (as.drop (k - 1)) (by simp only [List.length_drop]; simp at hl; omega)]
      simp [List.take_append_drop]

theorem chunkRows_flatten (k : ℕ) (l : List α) : (chunkRows k l).flatten = l :=
  chunkFuel_flatten k l.length l le_rfl

theorem chunkFuel3_length :
    ∀ (fuel : ℕ) (l : List α), l.length ≤ fuel →
      (chunkFuel 3 fuel l).length = (l.length + 2) / 3 := by
  intro fuel
  induction fuel with
  | zero =>
    intro l hl
    cases l with
    | nil => simp [chunkFuel]
    | cons a as => simp at hl
  | succ f ih =>
    intro l hl
    cases l with
    | nil => simp [chunkFuel]
    | cons a as =>
      rw [chunkFuel, List.length_cons,
        ih (as.drop (3 - 1)) (by simp only [List.length_drop]; simp at hl; omega)]
      simp only [List.length_drop, List.length_cons]
      omega

theorem chunkRows3_length (l : List α) :
    (chunkRows 3 l).length = (l.length + 2) / 3 :=
  chunkFuel3_length l.length l le_rfl

theorem chunkFuel_mem_ne_nil (k : ℕ) :
    ∀ (fuel : ℕ) (l : List α) (row : List α), row ∈ chunkFuel k fuel l → row ≠ [] := by
  intro fuel
  induction fuel with
  | zero =>
    intro l row hr
    cases l with
    | nil => simp [chunkFuel] at hr
    | cons a as =>
      rw [chunkFuel] at hr
      rcases List.mem_singleton.mp hr with rfl
      simp
  | succ f ih =>
    intro l row hr
    cases l with
    | nil => simp [chunkFuel] at hr
    | cons a as =>
      rw [chunkFuel] at hr
      rcases List.mem_cons.mp hr with rfl | hr2
      · simp
      · exact ih _ row hr2

theorem chunkRows_mem_ne_nil (k : ℕ) (l : List α) (row : List α)
    (hr : row ∈ chunkRows k l) : row ≠ [] :=
  chunkFuel_mem_ne_nil k l.length l row hr

theorem chunkRows_mem_subset (k : ℕ) (l : List α) (row : List α)
    (hrow : row ∈ chunkRows k l) (a : α) (ha : a ∈ row) : a ∈ l := by
  rw [← chunkRows_flatten k l]
  exact List.mem_flatten.mpr ⟨row, hrow, ha⟩

theorem enumFrom_map_proj {β γ δ : Type} (f : ℕ × β → γ) (proj : γ → δ) (g : β → δ)
    (h : ∀ (i : ℕ) (b : β), proj (f (i, b)) = g b) :
    ∀ (l : List β) (n : ℕ), ((List.enumFrom n l).map f).map proj = l.map g := by
  intro l
  induction l with
  | nil => intro n; rfl
  | cons b bs ih =>
    intro n
    simp only [List.enumFrom, List.map_cons, ih (n + 1), h]

theorem enumFrom_mem_snd {β : Type} :
    ∀ (l : List β) (n : ℕ) (ci : ℕ × β), ci ∈ List.enumFrom n l → ci.2 ∈ l := by
  intro l
  induction l with
  | nil => intro n ci hci; simp [List.enumFrom] at hci
  | cons b bs ih =>
    intro n ci hci
    rw [List.enumFrom] at hci
    rcases List.mem_cons.mp hci with rfl | hci2
    · exact List.mem_cons_self _ _
    · exact List.mem_cons_of_mem _ (ih (n + 1) ci hci2)

theorem placeRow_map_wh (cellW : ℚ) (row : List ImgDims) :
    (placeRow cellW row).map (fun p => (p.w, p.h)) =
      row.map (fun im => ((scaleImg cellW im).w, (scaleImg cellW im).h)) := by
  rw [placeRow, List.enum,
    enumFrom_map_proj _ _ (fun it : ScaledImg => (it.w, it.h)) (fun i b => rfl),
    List.map_map]
  rfl

theorem placeRow_map_h (cellW : ℚ) (row : List ImgDims) :
    (placeRow cellW row).map (fun p => p.h) =
      (row.map (scaleImg cellW)).map (fun it => it.h) := by
  rw [placeRow, List.enum,
    enumFrom_map_proj _ _ (fun it : ScaledImg => it.h) (fun i b => rfl)]

theorem placeRow_map_caption (cellW : ℚ) (row : List ImgDims) :
    (placeRow cellW row).map (fun p => p.caption) =
      (row.map (scaleImg cellW)).map (fun it => it.caption) := by
  rw [placeRow, List.enum,
    enumFrom_map_proj _ _ (fun it : ScaledImg => it.caption) (fun i b => rfl)]

theorem placeRow_length (cellW : ℚ) (row : List ImgDims) :
    (placeRow cellW row).length = row.length := by
  rw [placeRow]
  simp [List.enumFrom_length]

theorem placeRow_mem (cellW : ℚ) (row : List ImgDims) (p : PlacedImg)
    (hp : p ∈ placeRow cellW row) :
    ∃ im ∈ row, p.w = (scaleImg cellW im).w ∧
      p.x = p.cellX + jsMathFloor ((cellW - p.w) / 2) := by
  rw [placeRow] at hp
  rcases List.mem_map.mp hp with ⟨ci, hci, rfl⟩
  have h2 : ci.2 ∈ row.map (scaleImg cellW) := by
    rw [List.enum] at hci
    exact enumFrom_mem_snd _ 0 ci hci
  rcases List.mem_map.mp h2 with ⟨im, him, hsc⟩
  exact ⟨im, him, by rw [← hsc], rfl⟩

theorem le_foldr_max : ∀ (l : List ℚ) (x : ℚ), x ∈ l → x ≤ l.foldr max 0 := by
  intro l
  induction l with
  | nil => intro x hx; simp at hx
  | cons a as ih =>
    intro x hx
    rcases List.mem_cons.mp hx with rfl | hx2
    · exact le_max_left _ _
    · exact le_trans (ih x hx2) (le_max_right _ _)

theorem any_map_general {β γ : Type} (f : β → γ) (p : γ → Bool) :
    ∀ l : List β, (l.map f).any p = l.any (fun b => p (f b)) := by
  intro l
  induction l with
  | nil => rfl
  | cons a as ih => simp only [List.map_cons, List.any_cons, ih]

theorem any_caption_eq (l1 : List PlacedImg) (l2 : List ScaledImg)
    (h : l1.map (fun p => p.caption) = l2.map (fun it => it.caption)) :
    l1.any (fun p => p.caption ≠ "") = l2.any (fun it => it.caption ≠ "") := by
  have e1 := any_map_general (fun p : PlacedImg => p.caption)
    (fun s => decide (s ≠ "")) l1
  have e2 := any_map_general (fun it : ScaledImg => it.caption)
    (fun s => decide (s ≠ "")) l2
  rw [← e1, ← e2, h]

theorem scaleImg_bounds (cellW : ℚ) (im : ImgDims) (hw : 0 < im.width)
    (hh : 0 < im.height) (hc : 0 ≤ cellW) :
    imgScale cellW im ≤ 1 ∧ 0 ≤ imgScale cellW im ∧
    (scaleImg cellW im).w ≤ im.width ∧ (scaleImg cellW im).h ≤ im.height ∧
    (scaleImg cellW im).w ≤ cellW ∧
    0 ≤ (scaleImg cellW im).w ∧ 0 ≤ (scaleImg cellW im).h ∧
    im.width * imgScale cellW im - 1 < (scaleImg cellW im).w ∧
    (scaleImg cellW im).w ≤ im.width * imgScale cellW im ∧
    im.height * imgScale cellW im - 1 < (scaleImg cellW im).h ∧
    (scaleImg cellW im).h ≤ im.height * imgScale cellW im := by
  have hs1 : imgScale cellW im ≤ 1 :=
    le_trans (min_le_right _ _) (min_le_right _ _)
  have hscw : imgScale cellW im ≤ cellW / im.width := min_le_left _ _
  have hs0 : 0 ≤ imgScale cellW im := by
    rw [imgScale]
    refine le_min (div_nonneg hc (le_of_lt hw)) (le_min ?_ (by norm_num))
    exact div_nonneg (by norm_num [GRID_MAX_CELL_HEIGHT]) (le_of_lt hh)
  have hwle : (scaleImg cellW im).w ≤ im.width * imgScale cellW im :=
    jsMathFloor_le _
  have hhle : (scaleImg cellW im).h ≤ im.height * imgScale cellW im :=
    jsMathFloor_le _
  have hwgt : im.width * imgScale cellW im - 1 < (scaleImg cellW im).w :=
    lt_jsMathFloor_add_one _
  have hhgt : im.height * imgScale cellW im - 1 < (scaleImg cellW im).h :=
    lt_jsMathFloor_add_one _
  have hmulw : im.width * imgScale cellW im ≤ im.width :=
    calc im.width * imgScale cellW im ≤ im.width * 1 :=
          mul_le_mul_of_nonneg_left hs1 (le_of_lt hw)
      _ = im.width := mul_one _
  have hmulh : im.height * imgScale cellW im ≤ im.height :=
    calc im.height * imgScale cellW im ≤ im.height * 1 :=
          mul_le_mul_of_nonneg_left hs1 (le_of_lt hh)
      _ = im.height := mul_one _
  have hcellw : im.width * imgScale cellW im ≤ cellW := by
    have h1 : im.width * imgScale cellW im ≤ im.width * (cellW / im.width) :=
      mul_le_mul_of_nonneg_left hscw (le_of_lt hw)
    have h2 : im.width * (cellW / im.width) = cellW := by
      field_simp
    linarith
  have hw0 : 0 ≤ (scaleImg cellW im).w :=
    jsMathFloor_nonneg _ (mul_nonneg (le_of_lt hw) hs0)
  have hh0 : 0 ≤ (scaleImg cellW im).h :=
    jsMathFloor_nonneg _ (mul_nonneg (le_of_lt hh) hs0)
  exact ⟨hs1, hs0, le_trans hwle hmulw, le_trans hhle hmulh,
    le_trans hwle hcellw, hw0, hh0, hwgt, hwle, hhgt, hhle⟩

/-- Claim C3: in the 3-column photo grid (three or more decoded images),
the cell width is (availableWidth - 2 gutters) / 3; every image is scaled
by min(cellW/w, maxCellH/h, 1), hence never upscaled and with both drawn
dimensions within one unit of the exact aspect-preserving dimensions; each
image is horizontally centered within its cell up to one unit of floor
rounding; each row reserves the tallest scaled height plus one caption
line when any image of the row has a caption; and the images fill
ceil(N/3) rows left to right in input order. -/
theorem photoGrid_spec (imgs : List ImgDims) (hn : 3 ≤ imgs.length)
    (hpos : ∀ im ∈ imgs, 0 < im.width ∧ 0 < im.height) :
    gridCellW imgs.length = (gridAvailW - 2 * GRID_GUTTER) / 3 ∧
    (layoutGrid imgs).length = (imgs.length + 2) / 3 ∧
    (((layoutGrid imgs).map GridRow.imgs).flatten).map (fun p => (p.w, p.h)) =
      imgs.map (fun im => ((scaleImg (gridCellW imgs.length) im).w,
        (scaleImg (gridCellW imgs.length) im).h)) ∧
    (∀ im ∈ imgs,
      imgScale (gridCellW imgs.length) im =
        min (gridCellW imgs.length / im.width)
          (min (GRID_MAX_CELL_HEIGHT / im.height) 1) ∧
      imgScale (gridCellW imgs.length) im ≤ 1 ∧
      (scaleImg (gridCellW imgs.length) im).w ≤ im.width ∧
      (scaleImg (gridCellW imgs.length) im).h ≤ im.height ∧
      im.width * imgScale (gridCellW imgs.length) im - 1 <
        (scaleImg (gridCellW imgs.length) im).w ∧
      (scaleImg (gridCellW imgs.length) im).w ≤
        im.width * imgScale (gridCellW imgs.length) im ∧
      im.height * imgScale (gridCellW imgs.length) im - 1 <
        (scaleImg (gridCellW imgs.length) im).h ∧
      (scaleImg (gridCellW imgs.length) im).h ≤
        im.height * imgScale (gridCellW imgs.length) im) ∧
    (∀ row ∈ layoutGrid imgs, ∀ p ∈ row.imgs,
      p.x = p.cellX + jsMathFloor ((gridCellW imgs.length - p.w) / 2) ∧
      0 ≤ p.x - p.cellX ∧
      (p.x - p.cellX) + p.w ≤ gridCellW imgs.length ∧
      0 ≤ (gridCellW imgs.length - p.w) - 2 * (p.x - p.cellX) ∧
      (gridCellW imgs.length - p.w) - 2 * (p.x - p.cellX) < 2) ∧
    (∀ row ∈ layoutGrid imgs,
      row.imgs ≠ [] ∧
      row.rowHeight = (row.imgs.map (fun p => p.h)).foldr max 0 +
        (if row.imgs.any (fun p => p.caption ≠ "") then (12 : ℚ) else 0) ∧
      ∀ p ∈ row.imgs, p.h ≤ (row.imgs.map (fun q => q.h)).foldr max 0) := by
  have hcols : gridColumns imgs.length = 3 := by
    rw [gridColumns, GRID_COLUMNS_DEFAULT]
    omega
  have h146 : jsMathFloor (146 : ℚ) = 146 := by
    rw [jsMathFloor_eq]
    rw [show ((146 : ℚ)) = (((146 : ℤ) : ℚ)) from by norm_num, Int.floor_intCast]
  have ha : gridCellW imgs.length = 146 := by
    rw [gridCellW, hcols,
      show (gridAvailW - (((3 : ℕ) - 1 : ℕ) : ℚ) * GRID_GUTTER) / ((3 : ℕ) : ℚ) =
        (146 : ℚ) from by
          norm_num [gridAvailW, pageWidthPts, lineItemContentStartX,
            RIGHT_MARGIN, GRID_GUTTER]]
    exact h146
  have hrhs : (gridAvailW - 2 * GRID_GUTTER) / 3 = (146 : ℚ) := by
    norm_num [gridAvailW, pageWidthPts, lineItemContentStartX, RIGHT_MARGIN,
      GRID_GUTTER]
  have hcw0 : 0 ≤ gridCellW imgs.length := by rw [ha]; norm_num
  refine ⟨by rw [ha, hrhs], ?_, ?_, ?_, ?_, ?_⟩
  · rw [layoutGrid, hcols, List.length_map, chunkRows3_length]
  · rw [layoutGrid, hcols]
    have hL : ((chunkRows 3 imgs).map (layoutRow (gridCellW imgs.length))).map
        GridRow.imgs = (chunkRows 3 imgs).map (placeRow (gridCellW imgs.length)) := by
      rw [List.map_map]
      rfl
    rw [hL, List.map_flatten, List.map_map]
    have hstep : (chunkRows 3 imgs).map
        (List.map (fun p => (p.w, p.h)) ∘ placeRow (gridCellW imgs.length)) =
        (chunkRows 3 imgs).map (List.map (fun im =>
          ((scaleImg (gridCellW imgs.length) im).w,
           (scaleImg (gridCellW imgs.length) im).h))) := by
      congr 1
      funext ch
      exact placeRow_map_wh _ ch
    rw [hstep, ← List.map_flatten, chunkRows_flatten]
  · intro im him
    obtain ⟨h1, h2, h3, h4, h5, hw0, hh0, h8, h9, h10, h11⟩ :=
      scaleImg_bounds (gridCellW imgs.length) im (hpos im him).1 (hpos im him).2 hcw0
    exact ⟨rfl, h1, h3, h4, h8, h9, h10, h11⟩
  · intro row hrow p hp
    rw [layoutGrid, hcols] at hrow
    rcases List.mem_map.mp hrow with ⟨ch, hch, rfl⟩
    have hpimgs : p ∈ placeRow (gridCellW imgs.length) ch := hp
    rcases placeRow_mem _ ch p hpimgs with ⟨im, him, hpw, hpx⟩
    have himN : im ∈ imgs := chunkRows_mem_subset 3 imgs ch hch im him
    obtain ⟨hs1, hs0, h3, h4, h5, hw0, hh0, h8, h9, h10, h11⟩ :=
      scaleImg_bounds (gridCellW imgs.length) im (hpos im himN).1 (hpos im himN).2 hcw0
    have hple : p.w ≤ gridCellW imgs.length := by rw [hpw]; exact h5
    have hq : 0 ≤ gridCellW imgs.length - p.w := by linarith
    obtain ⟨hb0, hb1, hb2, hb3⟩ := floorHalf_bounds (gridCellW imgs.length - p.w) hq
    have hleft : p.x - p.cellX = jsMathFloor ((gridCellW imgs.length - p.w) / 2) := by
      rw [hpx]; ring
    refine ⟨hpx, ?_, ?_, ?_, ?_⟩ <;> rw [hleft] <;> linarith
  · intro row hrow
    rw [layoutGrid, hcols] at hrow
    rcases List.mem_map.mp hrow with ⟨ch, hch, rfl⟩
    have hchne : ch ≠ [] := chunkRows_mem_ne_nil 3 imgs ch hch
    have himgs : (layoutRow (gridCellW imgs.length) ch).imgs =
        placeRow (gridCellW imgs.length) ch := rfl
    refine ⟨?_, ?_, ?_⟩
    · rw [himgs]
      intro hnil
      have hlen := placeRow_length (gridCellW imgs.length) ch
      rw [hnil] at hlen
      simp only [List.length_nil] at hlen
      exact hchne (List.length_eq_zero.mp hlen.symm)
    · have hrh : (layoutRow (gridCellW imgs.length) ch).rowHeight =
          rowMaxH (ch.map (scaleImg (gridCellW imgs.length))) +
          rowCaptionH (ch.map (scaleImg (gridCellW imgs.length))) := rfl
      rw [hrh, himgs, placeRow_map_h,
        any_caption_eq _ _ (placeRow_map_caption _ ch), rowMaxH, rowCaptionH]
    · intro p hp
      exact le_foldr_max _ p.h (List.mem_map_of_mem (fun q => q.h) hp)

theorem photoGrid_spec_witness :
    3 ≤ ([⟨1200, 800, ""⟩, ⟨1200, 800, "cap"⟩, ⟨100, 50, ""⟩,
        ⟨3000, 2000, ""⟩] : List ImgDims).length ∧
    (∀ im ∈ ([⟨1200, 800, ""⟩, ⟨1200, 800, "cap"⟩, ⟨100, 50, ""⟩,
        ⟨3000, 2000, ""⟩] : List ImgDims), 0 < im.width ∧ 0 < im.height) ∧
    (layoutGrid [⟨1200, 800, ""⟩, ⟨1200, 800, "cap"⟩, ⟨100, 50, ""⟩,
        ⟨3000, 2000, ""⟩]).length =
      (([⟨1200, 800, ""⟩, ⟨1200, 800, "cap"⟩, ⟨100, 50, ""⟩,
        ⟨3000, 2000, ""⟩] : List ImgDims).length + 2) / 3 :=
  ⟨by decide, by decide,
   (photoGrid_spec [⟨1200, 800, ""⟩, ⟨1200, 800, "cap"⟩, ⟨100, 50, ""⟩,
       ⟨3000, 2000, ""⟩] (by decide) (by decide)).2.1⟩

theorem insertSorted_mem {α : Type} (le : α → α → Bool) (a x : α) :
    ∀ l : List α, x ∈ insertSorted le a l ↔ x = a ∨ x ∈ l := by
  intro l
  induction l with
  | nil => simp [insertSorted]
  | cons b bs ih =>
    rw [insertSorted]
    by_cases h : le a b
    · rw [if_pos h]
      simp only [List.mem_cons]
    · rw [if_neg h]
      simp only [List.mem_cons, ih]
      tauto

theorem sortStable_mem {α : Type} (le : α → α → Bool) (x : α) :
    ∀ l : List α, x ∈ sortStable le l ↔ x ∈ l := by
  intro l
  induction l with
  | nil => simp [sortStable]
  | cons a as ih =>
    rw [sortStable, insertSorted_mem]
    simp only [List.mem_cons, ih]

theorem sumTake_zero (l : List ℕ) : sumTake l 0 = 0 := rfl

theorem sumTake_succ_cons (p : ℕ) (ps : List ℕ) (i : ℕ) :
    sumTake (p :: ps) (i + 1) = p + sumTake ps i := by
  rw [sumTake, sumTake, List.take_succ_cons, List.sum_cons]

theorem recordedNumbersAux_getElem :
    ∀ (bp : List ℕ) (acc i : ℕ), i < bp.length →
      (recordedNumbersAux acc bp)[i]? = some (acc + 2 + sumTake bp i) := by
  intro bp
  induction bp with
  | nil => intro acc i hi; simp at hi
  | cons p ps ih =>
    intro acc i hi
    cases i with
    | zero => simp [recordedNumbersAux, sumTake_zero]
    | succ j =>
      rw [recordedNumbersAux, List.getElem?_cons_succ,
        ih (acc + p) j (by simpa using Nat.lt_of_succ_lt_succ hi),
        sumTake_succ_cons]
      congr 1
      omega

theorem findIdx_append_of_none {α : Type} (p : α → Bool) :
    ∀ (l1 l2 : List α), (∀ x ∈ l1, p x = false) →
      (l1 ++ l2).findIdx p = l1.length + l2.findIdx p := by
  intro l1
  induction l1 with
  | nil => intro l2 _; simp
  | cons a as ih =>
    intro l2 hall
    rw [List.cons_append, List.findIdx_cons, hall a (List.mem_cons_self _ _)]
    rw [ih l2 (fun x hx => hall x (List.mem_cons_of_mem _ hx))]
    simp only [List.length_cons, cond_false]
    omega

theorem bodyPageSeq_findIdx :
    ∀ (bp : List ℕ) (k i : ℕ) (hi : i < bp.length), 1 ≤ bp[i] →
      (bodyPageSeq k bp).findIdx (fun t => t == PageTag.body (k + i)) =
        sumTake bp i := by
  intro bp
  induction bp with
  | nil => intro k i hi; simp at hi
  | cons p ps ih =>
    intro k i hi hp
    cases i with
    | zero =>
      simp only [List.getElem_cons_zero] at hp
      cases p with
      | zero => omega
      | succ m =>
        rw [bodyPageSeq, List.replicate_succ, List.cons_append,
          List.findIdx_cons]
        have : (PageTag.body k == PageTag.body (k + 0)) = true := by
          simp
        rw [this, sumTake_zero]
        rfl
    | succ j =>
      rw [bodyPageSeq]
      rw [findIdx_append_of_none _ _ _ (by
        intro x hx
        rcases List.eq_of_mem_replicate hx with rfl
        simp)]
      rw [List.length_replicate, sumTake_succ_cons]
      have hj : j < ps.length := by simpa using Nat.lt_of_succ_lt_succ hi
      have hpj : 1 ≤ ps[j] := by
        simpa [List.getElem_cons_succ] using hp
      have := ih (k + 1) j hj hpj
      rw [show k + (j + 1) = k + 1 + j from by omega, this]

/-- Claim C4 counterexample: thirty one-page sections make the table of
contents spill to a second page; the body pass still records pageCount + 2
(anticipating a one-page TOC), so the TOC prints 3 for the first section
whose first page physically sits at position 4 of the spliced document. -/
theorem twoPassToc_counterexample :
    generateCompleteReportModel
        ⟨some ((List.range 30).map (fun i => ⟨"S", (i : ℤ)⟩)), none⟩ (fun _ => 1) =
      Except.ok (assembleReport ((List.range 30).map (fun i => ⟨"S", (i : ℤ)⟩))
        (fun _ => 1)) ∧
    (assembleReport ((List.range 30).map (fun i => ⟨"S", (i : ℤ)⟩))
        (fun _ => 1)).tocPages = 2 ∧
    (assembleReport ((List.range 30).map (fun i => ⟨"S", (i : ℤ)⟩))
        (fun _ => 1)).printedNumbers[0]? = some 3 ∧
    physicalPageOf (assembleReport ((List.range 30).map (fun i => ⟨"S", (i : ℤ)⟩))
        (fun _ => 1)) 0 = 4 ∧
    (3 : ℕ) ≠ 4 :=
  ⟨rfl, by decide, by decide, by decide, by decide⟩

/-- Claim C4 as amended: the body pass records each section's starting
page as the current page count plus two, the table of contents prints
exactly the recorded numbers, and its pages are inserted directly after
the cover page; provided the rendered TOC occupies exactly one page (and
each section emits at least one page), the number printed for every
section equals the physical position of that section's first page in the
spliced document. -/
theorem twoPassToc_exact (d : InspectionInput) (bodyPagesOf : SectionData → ℕ)
    (r : AssembledReport)
    (hok : generateCompleteReportModel d bodyPagesOf = Except.ok r)
    (hpos : ∀ s ∈ sectionsOf d, 1 ≤ bodyPagesOf s)
    (htoc : r.tocPages = 1) :
    r.printedNumbers = recordedNumbers r.bodyPages ∧
    r.pageSeq = PageTag.cover ::
      (List.replicate r.tocPages PageTag.toc ++ bodyPageSeq 0 r.bodyPages) ∧
    (∀ i, i < r.bodyPages.length →
      r.printedNumbers[i]? = some (physicalPageOf r i)) := by
  rw [generateCompleteReportModel] at hok
  by_cases hz : (sectionsOf d).length = 0
  · rw [if_pos hz] at hok
    exact absurd hok (by simp)
  · rw [if_neg hz] at hok
    have hr : r = assembleReport (sectionsOf d) bodyPagesOf :=
      (Except.ok.inj hok).symm
    subst hr
    have hbp : ∀ i, (hi : i < ((sortSectionsByOrder (sectionsOf d)).map
        bodyPagesOf).length) →
        1 ≤ ((sortSectionsByOrder (sectionsOf d)).map bodyPagesOf)[i] := by
      intro i hi
      rw [List.getElem_map]
      apply hpos
      rw [← sortStable_mem (fun a b => a.order ≤ b.order)]
      exact List.getElem_mem _
    refine ⟨rfl, rfl, ?_⟩
    intro i hi
    have hilen : i < ((sortSectionsByOrder (sectionsOf d)).map bodyPagesOf).length := hi
    rw [show (assembleReport (sectionsOf d) bodyPagesOf).printedNumbers =
        recordedNumbers ((sortSectionsByOrder (sectionsOf d)).map bodyPagesOf)
        from rfl]
    rw [recordedNumbers, recordedNumbersAux_getElem _ 1 i hilen]
    rw [physicalPageOf]
    rw [show (assembleReport (sectionsOf d) bodyPagesOf).pageSeq =
        PageTag.cover :: (List.replicate (assembleReport (sectionsOf d)
          bodyPagesOf).tocPages PageTag.toc ++
          bodyPageSeq 0 ((sortSectionsByOrder (sectionsOf d)).map bodyPagesOf))
        from rfl, htoc]
    rw [List.findIdx_cons]
    have hcov : (PageTag.cover == PageTag.body i) = false := by simp
    rw [hcov]
    rw [findIdx_append_of_none _ _ _ (by
      intro x hx
      rcases List.eq_of_mem_replicate hx with rfl
      simp)]
    have hfind := bodyPageSeq_findIdx
      ((sortSectionsByOrder (sectionsOf d)).map bodyPagesOf) 0 i hilen (hbp i hilen)
    rw [show (0 : ℕ) + i = i from by omega] at hfind
    rw [hfind, List.length_replicate]
    simp only [cond_false]
    congr 1
    omega

theorem twoPassToc_exact_witness :
    generateCompleteReportModel ⟨some [⟨"A", 1⟩, ⟨"B", 2⟩, ⟨"C", 3⟩], none⟩
        (fun _ => 1) =
      Except.ok (assembleReport [⟨"A", 1⟩, ⟨"B", 2⟩, ⟨"C", 3⟩] (fun _ => 1)) ∧
    (∀ s ∈ sectionsOf ⟨some [⟨"A", 1⟩, ⟨"B", 2⟩, ⟨"C", 3⟩], none⟩,
      1 ≤ (fun _ : SectionData => 1) s) ∧
    (assembleReport [⟨"A", 1⟩, ⟨"B", 2⟩, ⟨"C", 3⟩] (fun _ => 1)).tocPages = 1 ∧
    (∀ i, i < (assembleReport [⟨"A", 1⟩, ⟨"B", 2⟩, ⟨"C", 3⟩]
        (fun _ => 1)).bodyPages.length →
      (assembleReport [⟨"A", 1⟩, ⟨"B", 2⟩, ⟨"C", 3⟩]
        (fun _ => 1)).printedNumbers[i]? =
        some (physicalPageOf (assembleReport [⟨"A", 1⟩, ⟨"B", 2⟩, ⟨"C", 3⟩]
          (fun _ => 1)) i)) :=
  ⟨rfl, by decide, by decide,
   (twoPassToc_exact ⟨some [⟨"A", 1⟩, ⟨"B", 2⟩, ⟨"C", 3⟩], none⟩ (fun _ => 1)
     (assembleReport [⟨"A", 1⟩, ⟨"B", 2⟩, ⟨"C", 3⟩] (fun _ => 1))
     rfl (by decide) (by decide)).2.2⟩
